import Mathlib

/-!
A shallow embedding of the redis-cleaner program (src/main.rs): the Lua sweep
script executed by `expire_keys`, the `cleanup` task wrapper, the fan-out /
fan-in coordinator loop of `main`, and the notification-color aggregation
that `main` performs over the collected results.

The store (Redis) is an external collaborator: it is modelled by a record of
operations (`StoreOps`) over an abstract state type, each of which may fail
(a failing `redis.call` aborts the Lua script).  Concrete instantiations used
by the theorems are `concreteOps` (a functional model of a Redis keyspace:
SCAN enumerates the key list page by page, TTL reads the per-key TTL state,
EXPIRE writes it) and `scheduleOps` (an arbitrary, possibly cyclic cursor
schedule, used for the termination / iteration-cap theorems).
-/

namespace RedisCleaner

/-- The hard page cap of the Lua sweep script (`local max_iterations = 100000`). -/
def MAX_ITERATIONS : Nat := 100000

/-- Rust struct `CleanupConfig`: one cleanup rule (name, glob pattern,
TTL to assign, scan page-size hint). -/
structure CleanupConfig where
  name : String
  pattern : String
  ttl_seconds : Int
  batch : Int
  deriving DecidableEq, Repr

/-- Rust struct `ProcessingResult`: the per-rule outcome built by `cleanup`. -/
structure ProcessingResult where
  config : CleanupConfig
  processed_keys : Int
  iterations : Int
  error_msg : String
  execution_time : String
  deriving DecidableEq, Repr

/-- Abstract store operations as issued by the Lua script: SCAN (cursor,
match pattern, count hint), TTL, EXPIRE.  Each may fail - a raised
`redis.call` error aborts the whole script - and threads a state of type σ
recording the store's contents. -/
structure StoreOps (σ : Type) where
  scan : σ → Nat → String → Int → Except String (σ × Nat × List String)
  ttl : σ → String → Except String (σ × Int)
  expire : σ → String → Int → Except String σ

/-- Result of one run of the Lua script body: the final store state, the
error that aborted it (if any), and the script-local `processed` and
`iterations` counters at the moment it stopped. -/
structure SweepRes (σ : Type) where
  state : σ
  err : Option String
  processed : Nat
  iterations : Nat

/-- The per-page key loop of the Lua script: for each key v, TTL v; if the
reply is -1 then `processed = processed + 1` and, unless dry-run,
EXPIRE v expire_num.  On a store failure it returns the state and the
counter at the moment of the failure. -/
def processKeys (ops : StoreOps σ) (expireNum dryRun : Int) :
    List String → σ → Nat → Except (σ × Nat × String) (σ × Nat)
  | [], s, p => .ok (s, p)
  | v :: rest, s, p =>
    match ops.ttl s v with
    | .error e => .error (s, p, e)
    | .ok (s1, t) =>
      if t = -1 then
        if dryRun = 0 then
          match ops.expire s1 v expireNum with
          | .error e => .error (s1, p + 1, e)
          | .ok s2 => processKeys ops expireNum dryRun rest s2 (p + 1)
        else processKeys ops expireNum dryRun rest s1 (p + 1)
      else processKeys ops expireNum dryRun rest s1 p

/-- The repeat/until loop of the Lua script.  Each pass increments
`iterations`, SCANs one page, runs the per-key loop, then advances the
cursor to the one the store returned - unless `iterations` has reached
`max_iterations`, in which case the cursor is forced to the sentinel 0 - and
stops when the cursor is the sentinel.  `fuel` only bounds the recursion
structurally: since the cap forces the sentinel, running the loop with
`fuel = MAX_ITERATIONS` realises exactly the script's loop. -/
def sweepLoop (ops : StoreOps σ) (pat : String) (count expireNum dryRun : Int) :
    Nat → σ → Nat → Nat → Nat → SweepRes σ
  | fuel, s, cursor, iters, processed =>
    match ops.scan s cursor pat count with
    | .error e => ⟨s, some e, processed, iters + 1⟩
    | .ok (s1, nxt, keys) =>
      match processKeys ops expireNum dryRun keys s1 processed with
      | .error (s2, p2, e) => ⟨s2, some e, p2, iters + 1⟩
      | .ok (s2, p2) =>
        let cursor1 := if iters + 1 < MAX_ITERATIONS then nxt else 0
        if cursor1 = 0 then ⟨s2, none, p2, iters + 1⟩
        else
          match fuel with
          | 0 => ⟨s2, none, p2, iters + 1⟩
          | fuel1 + 1 =>
            sweepLoop ops pat count expireNum dryRun fuel1 s2 cursor1 (iters + 1) p2

/-- One invocation of the Lua script (`script.key(..).arg(..).invoke`): the
loop is entered from cursor "0" with both counters zeroed. -/
def invokeScript (ops : StoreOps σ) (s : σ) (pattern : String)
    (batch ttlSeconds dryRunNum : Int) : SweepRes σ :=
  sweepLoop ops pattern batch ttlSeconds dryRunNum MAX_ITERATIONS s 0 0 0

/-- The redis client as the program uses it: `get_connection` (which
`expire_keys` unwraps, panicking on failure) and the store operations the
script issues over the obtained connection. -/
structure Client (σ : Type) where
  get_connection : Except String σ
  ops : StoreOps σ

/-- Rust `expire_keys`: panics (modelled as the outer `.error`) if
`get_connection` fails, since the source unwraps it; otherwise invokes the
Lua script and, on a script error, returns `(Some(err), 0, 0)` - the
counters in the error arm are the literals 0 from the source, not the
script's accumulated counters.  The final store state is returned as an
extra component so that the side effect on the store is observable. -/
def expire_keys (client : Client σ) (conf : CleanupConfig) (dry_run : Bool) :
    Except String (Option String × Int × Int × σ) :=
  match client.get_connection with
  | .error e => .error e
  | .ok conn =>
    let dryRunNum : Int := if dry_run then 1 else 0
    let r := invokeScript client.ops conn conf.pattern conf.batch conf.ttl_seconds dryRunNum
    match r.err with
    | some e => .ok (some e, 0, 0, r.state)
    | none => .ok (none, (r.processed : Int), (r.iterations : Int), r.state)

/-- Rust `cleanup`: samples `start = Instant::now()` (clock sample 0) and
`duration = start.elapsed()` (clock sample 1) before running `expire_keys`,
then builds the `ProcessingResult`, rendering an absent error as the empty
message.  A panic inside `expire_keys` propagates out of the task. -/
def cleanup (clock : Nat → Nat) (client : Client σ) (conf : CleanupConfig)
    (dry_run : Bool) : Except String (ProcessingResult × σ) :=
  let start := clock 0
  let duration := clock 1 - start
  match expire_keys client conf dry_run with
  | .error e => .error e
  | .ok (err, processed_keys, iterations, s1) =>
    .ok ({ config := conf
           processed_keys := processed_keys
           iterations := iterations
           error_msg := match err with | some e => e | none => ""
           execution_time := toString duration }, s1)

/-- The fan-out / fan-in section of `main`: spawn one `cleanup` task per
config, then `job.await.unwrap()` in submission order, collecting the
results in that same order.  A panicking task panics the whole program at
its join point (the outer `.error`). -/
def runAll (clock : Nat → Nat) (client : Client σ) (configs : List CleanupConfig)
    (dry_run : Bool) : Except String (List ProcessingResult) :=
  configs.mapM (fun conf => (cleanup clock client conf dry_run).map (fun r => r.1))

/-- The result-aggregation loop of `main`: the notification color starts
green ("#2EB67D") and flips to red ("#E01E5A") on any result whose trimmed
error message is non-empty. -/
def overallColor (results : List ProcessingResult) : String :=
  results.foldl
    (fun color res => if res.error_msg.trim.isEmpty then color else "#E01E5A")
    "#2EB67D"

/-- The `ProcessingResult` produced for one rule once its connection was
obtained: a pure function of the rule, the store operations, the connection
state and the clock.  Used to state that each rule's outcome depends on that
rule alone. -/
def sweepOutcome (clock : Nat → Nat) (ops : StoreOps σ) (conn : σ)
    (conf : CleanupConfig) (dry_run : Bool) : ProcessingResult :=
  let r := invokeScript ops conn conf.pattern conf.batch conf.ttl_seconds
    (if dry_run then 1 else 0)
  { config := conf
    processed_keys := match r.err with | some _ => 0 | none => (r.processed : Int)
    iterations := match r.err with | some _ => 0 | none => (r.iterations : Int)
    error_msg := match r.err with | some e => e | none => ""
    execution_time := toString (clock 1 - clock 0) }

/-- A functional model of a Redis keyspace: the list of present keys in SCAN
enumeration order, and the per-key TTL state as the TTL command reports it
(-2 absent, -1 present without expiry, otherwise the remaining seconds). -/
structure Store where
  keys : List String
  ttl : String → Int

/-- The concrete store operations over `Store`, parameterised by the glob
matcher `m` (pattern semantics belong to the external store): SCAN returns
the matching keys among the next `count` positions and advances the cursor,
returning the sentinel 0 once the enumeration is exhausted; TTL reads the
TTL state; EXPIRE overwrites it.  None of these operations fail. -/
def concreteOps (m : String → String → Bool) : StoreOps Store where
  scan s cursor pat count :=
    let n := count.toNat
    .ok (s, (if cursor + n < s.keys.length then cursor + n else 0),
         ((s.keys.drop cursor).take n).filter (m pat))
  ttl s k := .ok (s, s.ttl k)
  expire s k n := .ok { keys := s.keys, ttl := fun k2 => if k2 = k then n else s.ttl k2 }

/-- A store presenting an arbitrary (possibly cyclic) cursor schedule: the
state counts the SCAN calls made so far, the k-th SCAN returns cursor `f k`
and page `pages k`, TTL answers `tt`, and nothing mutates or fails.  Used to
quantify over every cursor sequence the store could produce. -/
def scheduleOps (f : Nat → Nat) (pages : Nat → List String) (tt : String → Int) :
    StoreOps Nat where
  scan s _cursor _pat _count := .ok (s + 1, f s, pages s)
  ttl s k := .ok (s, tt k)
  expire s _k _n := .ok s

/-- The first index k with `lo ≤ k < lo + gas` and `f k = 0`, if any:
the iteration at which the store first returns the scan-complete sentinel. -/
def firstZeroFrom (f : Nat → Nat) (lo : Nat) : Nat → Option Nat
  | 0 => none
  | gas + 1 => if f lo = 0 then some lo else firstZeroFrom f (lo + 1) gas

/-! ### Concrete fixtures used by witnesses and counterexamples -/

/-- A matcher accepting every key. -/
def mTrue : String → String → Bool := fun _ _ => true

/-- A matcher accepting no key. -/
def mFalse : String → String → Bool := fun _ _ => false

/-- A two-key store in which both keys are persistent (TTL -1). -/
def storeAB : Store := { keys := ["a", "b"], ttl := fun _ => -1 }

/-- A small concrete rule. -/
def confW : CleanupConfig := { name := "r", pattern := "p", ttl_seconds := 60, batch := 10 }

/-- A second concrete rule with a different name and pattern. -/
def confW2 : CleanupConfig := { name := "r2", pattern := "bad", ttl_seconds := 30, batch := 5 }

/-- Store operations whose first SCAN succeeds with one persistent key and a
non-sentinel cursor, and whose second SCAN fails: a sweep over them
accumulates one processed key and then hits a store failure. -/
def failOps : StoreOps Nat where
  scan s _cursor _pat _count := if s = 0 then .ok (1, 5, ["k1"]) else .error ("scan failed")
  ttl s _k := .ok (s, -1)
  expire s _k _n := .ok s

/-- A client over `failOps` whose connection succeeds. -/
def clientF : Client Nat := { get_connection := .ok 0, ops := failOps }

/-- A client over the two-key concrete store whose connection succeeds. -/
def clientW : Client Store := { get_connection := .ok storeAB, ops := concreteOps mTrue }

/-- Store operations that fail every SCAN for the pattern "bad" and succeed
with an immediately-complete empty scan for every other pattern. -/
def mixedOps : StoreOps Nat where
  scan s _cursor pat _count :=
    if pat = "bad" then .error ("scan failed") else .ok (s, 0, [])
  ttl s _k := .ok (s, -1)
  expire s _k _n := .ok s

/-- A client over `mixedOps` whose connection succeeds. -/
def clientMix : Client Nat := { get_connection := .ok 0, ops := mixedOps }

/-- A client whose connection acquisition fails: `expire_keys` unwraps this
failure, so the task panics. -/
def clientBad : Client Store :=
  { get_connection := .error ("connection refused"), ops := concreteOps mTrue }

/-- A second failing-connection client with a different error message. -/
def clientBad2 : Client Nat :=
  { get_connection := .error ("NOAUTH Authentication required"),
    ops := scheduleOps (fun _ => 0) (fun _ => []) (fun _ => -2) }

/-! ### Aggregation (the color fold of main) -/

/-- Folding the color update over any list yields green exactly when every
result's trimmed error message is empty; one red result is absorbing. -/
lemma overallColor_foldl (l : List ProcessingResult) :
    ∀ c : String,
      l.foldl (fun color res => if res.error_msg.trim.isEmpty then color else "#E01E5A") c
        = if ∀ r ∈ l, r.error_msg.trim.isEmpty then c else "#E01E5A" := by
  induction l with
  | nil => intro c; simp
  | cons r rest ih =>
    intro c
    by_cases hr : r.error_msg.trim.isEmpty
    · simp [hr, ih c, List.forall_mem_cons]
    · simp [hr, ih ("#E01E5A"), List.forall_mem_cons]

/-! ### The executor and coordinator under a successful connection -/

/-- When the connection is obtained, `cleanup` returns exactly the outcome
`sweepOutcome` describes (a pure function of the rule alone), paired with
the store state the sweep left behind. -/
lemma cleanup_eq_sweepOutcome (clock : Nat → Nat) (client : Client σ)
    (conf : CleanupConfig) (dry_run : Bool) (conn : σ)
    (h : client.get_connection = .ok conn) :
    cleanup clock client conf dry_run
      = .ok (sweepOutcome clock client.ops conn conf dry_run,
          (invokeScript client.ops conn conf.pattern conf.batch conf.ttl_seconds
            (if dry_run then 1 else 0)).state) := by
  cases he : (invokeScript client.ops conn conf.pattern conf.batch conf.ttl_seconds
      (if dry_run then 1 else 0)).err with
  | none => simp [cleanup, expire_keys, sweepOutcome, h, he]
  | some e => simp [cleanup, expire_keys, sweepOutcome, h, he]

/-- When the connection is obtained, the coordinator returns one outcome per
config, in submission order, and each outcome is `sweepOutcome` of its own
config alone. -/
lemma runAll_ok (clock : Nat → Nat) (client : Client σ)
    (configs : List CleanupConfig) (dry_run : Bool) (conn : σ)
    (h : client.get_connection = .ok conn) :
    runAll clock client configs dry_run
      = .ok (configs.map (fun conf => sweepOutcome clock client.ops conn conf dry_run)) := by
  induction configs with
  | nil => rfl
  | cons conf rest ih =>
    unfold runAll at ih ⊢
    rw [List.mapM_cons, cleanup_eq_sweepOutcome clock client conf dry_run conn h, ih]
    rfl

/-! ### Claim C8 -/

/-- C8: aggregation is a pure function of the outcome sequence (a total fold
with no failure modes): the overall status is the success color exactly when
every outcome's (trimmed) error message is empty, and an empty outcome
sequence yields the success color vacuously. -/
theorem claim_C8_aggregation (results : List ProcessingResult) :
    (overallColor results = "#2EB67D" ↔ ∀ r ∈ results, r.error_msg.trim.isEmpty)
    ∧ overallColor [] = "#2EB67D" := by
  constructor
  · rw [overallColor, overallColor_foldl results "#2EB67D"]
    by_cases hall : ∀ r ∈ results, r.error_msg.trim.isEmpty
    · simp [hall]
    · simp only [if_neg hall]
      constructor
      · intro hcontr
        exact absurd hcontr (by decide)
      · intro hcontr
        exact absurd hcontr hall
  · rfl

/-! ### Claim C10 -/

/-- C10: the `execution_time` recorded on a `ProcessingResult` equals the
difference of the two clock instants sampled before the sweep runs, so it is
the same whatever client, rule or dry-run flag the sweep actually ran with -
it never reflects the sweep's duration. -/
theorem claim_C10_execution_time (clock : Nat → Nat) {σ1 σ2 : Type}
    (c1 : Client σ1) (c2 : Client σ2) (conf1 conf2 : CleanupConfig) (d1 d2 : Bool)
    (r1 : ProcessingResult × σ1) (r2 : ProcessingResult × σ2)
    (h1 : cleanup clock c1 conf1 d1 = .ok r1)
    (h2 : cleanup clock c2 conf2 d2 = .ok r2) :
    r1.1.execution_time = toString (clock 1 - clock 0)
    ∧ r1.1.execution_time = r2.1.execution_time := by
  have e1 : r1.1.execution_time = toString (clock 1 - clock 0) := by
    unfold cleanup at h1
    cases hk : expire_keys c1 conf1 d1 with
    | error e => rw [hk] at h1; exact absurd h1 (by simp)
    | ok v =>
      obtain ⟨err, pk, its, s1⟩ := v
      rw [hk] at h1
      simp only [Except.ok.injEq] at h1
      rw [← h1]
  have e2 : r2.1.execution_time = toString (clock 1 - clock 0) := by
    unfold cleanup at h2
    cases hk : expire_keys c2 conf2 d2 with
    | error e => rw [hk] at h2; exact absurd h2 (by simp)
    | ok v =>
      obtain ⟨err, pk, its, s1⟩ := v
      rw [hk] at h2
      simp only [Except.ok.injEq] at h2
      rw [← h2]
  exact ⟨e1, e2 ▸ e1⟩

/-- Witness for C10 at a concrete clock, two different clients (one failing
mid-sweep, one succeeding) and two different rules. -/
theorem claim_C10_witness :
    ∃ (r1 : ProcessingResult × Nat) (r2 : ProcessingResult × Store),
      cleanup (fun n => n + 7) clientF confW false = .ok r1
      ∧ cleanup (fun n => n + 7) clientW confW2 true = .ok r2
      ∧ r1.1.execution_time = toString ((8 : Nat) - 7)
      ∧ r1.1.execution_time = r2.1.execution_time := by
  obtain ⟨e1, e2⟩ := claim_C10_execution_time (fun n => n + 7) clientF clientW confW confW2
    false true _ _ rfl rfl
  exact ⟨_, _, rfl, rfl, e1, e2⟩

/-! ### Claim C1 -/

/-- C1 counterexample: over `failOps` the sweep accumulates one processed key
and reaches its second iteration before the store failure, yet `expire_keys`
returns the outcome `(some err, 0, 0)` - the accumulated counts are reset to
zero, contradicting the claim that they are returned. -/
theorem claim_C1_counterexample :
    (invokeScript clientF.ops 0 confW.pattern confW.batch confW.ttl_seconds 0).err
        = some ("scan failed")
    ∧ (invokeScript clientF.ops 0 confW.pattern confW.batch confW.ttl_seconds 0).processed = 1
    ∧ (invokeScript clientF.ops 0 confW.pattern confW.batch confW.ttl_seconds 0).iterations = 2
    ∧ expire_keys clientF confW false = .ok (some ("scan failed"), 0, 0, 1)
    ∧ ((0 : Int)
        ≠ ((invokeScript clientF.ops 0 confW.pattern confW.batch confW.ttl_seconds 0).processed
            : Int)) :=
  ⟨rfl, rfl, rfl, rfl, by decide⟩

/-- C1 amended: when a store-level failure aborts the sweep, `expire_keys`
stops immediately and returns an outcome whose error field is that failure
and whose keysProcessed and iterations are both the literal 0 - the counts
accumulated inside the script up to the failure are discarded, because the
sweep runs as a single script invocation whose failure yields no counts. -/
theorem claim_C1_error_zeroes {σ : Type} (client : Client σ) (conf : CleanupConfig)
    (dry_run : Bool) (conn : σ) (e : String)
    (hconn : client.get_connection = .ok conn)
    (herr : (invokeScript client.ops conn conf.pattern conf.batch conf.ttl_seconds
        (if dry_run then 1 else 0)).err = some e) :
    expire_keys client conf dry_run
      = .ok (some e, 0, 0,
          (invokeScript client.ops conn conf.pattern conf.batch conf.ttl_seconds
            (if dry_run then 1 else 0)).state) := by
  simp [expire_keys, hconn, herr]

/-- Witness for the amended C1 over the concrete failing store. -/
theorem claim_C1_witness :
    expire_keys clientF confW false
      = .ok (some ("scan failed"), 0, 0,
          (invokeScript clientF.ops 0 confW.pattern confW.batch confW.ttl_seconds
            (if false then 1 else 0)).state) :=
  claim_C1_error_zeroes clientF confW false 0 "scan failed" rfl rfl

/-! ### Claim C2 -/

/-- C2 counterexample: a store-level failure at connection acquisition is
unwrapped inside the task, the panic propagates through the coordinator's
`job.await.unwrap()`, and the coordinator returns no outcomes at all - the
store failure escapes the coordinator boundary instead of being data. -/
theorem claim_C2_counterexample :
    runAll (fun n => n) clientBad2 [confW] false
        = .error ("NOAUTH Authentication required")
    ∧ ∀ results : List ProcessingResult,
        runAll (fun n => n) clientBad2 [confW] false ≠ .ok results := by
  refine ⟨rfl, ?_⟩
  intro results hcontr
  rw [show runAll (fun n => n) clientBad2 [confW] false
      = .error ("NOAUTH Authentication required") from rfl] at hcontr
  exact Except.noConfusion hcontr

/-- C2 amended: provided every rule's connection acquisition succeeds, the
coordinator returns exactly one outcome per rule in submission order, each
outcome a pure function of its own rule - so a rule whose script invocation
fails carries its error as data on its own outcome and leaves every other
rule's outcome unaffected.  (A connection-acquisition failure, by contrast,
panics and propagates past the coordinator - see the counterexample.) -/
theorem claim_C2_isolation (clock : Nat → Nat) {σ : Type} (client : Client σ)
    (configs : List CleanupConfig) (dry_run : Bool) (conn : σ)
    (hconn : client.get_connection = .ok conn) :
    runAll clock client configs dry_run
      = .ok (configs.map (fun conf => sweepOutcome clock client.ops conn conf dry_run))
    ∧ ∀ conf : CleanupConfig,
        (sweepOutcome clock client.ops conn conf dry_run).error_msg
          = (match (invokeScript client.ops conn conf.pattern conf.batch conf.ttl_seconds
              (if dry_run then 1 else 0)).err with
             | some e => e
             | none => "") := by
  refine ⟨runAll_ok clock client configs dry_run conn hconn, ?_⟩
  intro conf
  rfl

/-- Witness for the amended C2: two rules against a store that fails every
scan for the second rule's pattern; the coordinator returns two outcomes,
the first error-free and the second carrying the scan failure as data. -/
theorem claim_C2_witness :
    runAll (fun n => n) clientMix [confW, confW2] false
      = .ok [sweepOutcome (fun n => n) clientMix.ops 0 confW false,
             sweepOutcome (fun n => n) clientMix.ops 0 confW2 false]
    ∧ (sweepOutcome (fun n => n) clientMix.ops 0 confW false).error_msg = ""
    ∧ (sweepOutcome (fun n => n) clientMix.ops 0 confW2 false).error_msg = "scan failed" :=
  ⟨(claim_C2_isolation (fun n => n) clientMix [confW, confW2] false 0 rfl).1, rfl, rfl⟩

/-! ### Claim C7 -/

/-- C7 counterexample: with a client whose connection acquisition fails, the
coordinator does not return one outcome per rule - it panics and returns no
outcomes, so the claim fails as universally stated. -/
theorem claim_C7_counterexample :
    runAll (fun n => n) clientBad [confW, confW2] false = .error ("connection refused")
    ∧ ∀ results : List ProcessingResult,
        runAll (fun n => n) clientBad [confW, confW2] false ≠ .ok results := by
  refine ⟨rfl, ?_⟩
  intro results hcontr
  rw [show runAll (fun n => n) clientBad [confW, confW2] false
      = .error ("connection refused") from rfl] at hcontr
  exact Except.noConfusion hcontr

/-- C7 amended: provided connection acquisition succeeds, the coordinator
waits for all sweeps and returns exactly one outcome per rule, indexed in
the same order the rules were submitted (position i holds the outcome of
rule i), regardless of the sweeps' own behavior. -/
theorem claim_C7_order (clock : Nat → Nat) {σ : Type} (client : Client σ)
    (configs : List CleanupConfig) (dry_run : Bool) (conn : σ)
    (hconn : client.get_connection = .ok conn) :
    ∃ results : List ProcessingResult,
      runAll clock client configs dry_run = .ok results
      ∧ results.length = configs.length
      ∧ ∀ i : Nat, results[i]?
          = (configs[i]?).map (fun conf => sweepOutcome clock client.ops conn conf dry_run) := by
  refine ⟨configs.map (fun conf => sweepOutcome clock client.ops conn conf dry_run),
    runAll_ok clock client configs dry_run conn hconn, by simp, ?_⟩
  intro i
  exact List.getElem?_map ..

/-! ### Claim C3: termination and the iteration cap, over any cursor schedule -/

/-- A hit reported by `firstZeroFrom` lies in the searched window. -/
lemma firstZeroFrom_some (f : Nat → Nat) :
    ∀ (gas lo k : Nat), firstZeroFrom f lo gas = some k → lo ≤ k ∧ k < lo + gas := by
  intro gas
  induction gas with
  | zero => intro lo k h; exact absurd h (by simp [firstZeroFrom])
  | succ g ih =>
    intro lo k h
    rw [firstZeroFrom] at h
    by_cases hz : f lo = 0
    · rw [if_pos hz, Option.some.injEq] at h
      omega
    · rw [if_neg hz] at h
      have := ih (lo + 1) k h
      omega

/-- Over a schedule store the per-key loop never fails and leaves the scan
counter untouched. -/
lemma processKeys_schedule (f : Nat → Nat) (pages : Nat → List String)
    (tt : String → Int) (en dr : Int) :
    ∀ (keys : List String) (s p : Nat),
      ∃ p2, processKeys (scheduleOps f pages tt) en dr keys s p = .ok (s, p2) := by
  intro keys
  induction keys with
  | nil => intro s p; exact ⟨p, rfl⟩
  | cons v rest ih =>
    intro s p
    have hred : processKeys (scheduleOps f pages tt) en dr (v :: rest) s p
        = if tt v = -1 then
            (if dr = 0 then processKeys (scheduleOps f pages tt) en dr rest s (p + 1)
             else processKeys (scheduleOps f pages tt) en dr rest s (p + 1))
          else processKeys (scheduleOps f pages tt) en dr rest s p := rfl
    by_cases hv : tt v = -1
    · obtain ⟨p2, h⟩ := ih s (p + 1)
      refine ⟨p2, ?_⟩
      rw [hred, if_pos hv, ite_self]
      exact h
    · obtain ⟨p2, h⟩ := ih s p
      refine ⟨p2, ?_⟩
      rw [hred, if_neg hv]
      exact h

/-- The loop over a schedule store never fails and stops at the first
sentinel cursor, or at the cap - whichever comes first: starting at
iteration count `iters` with `fuel = MAX_ITERATIONS - iters`, the final
iteration count is `k + 1` for the first `k ≥ iters` with `f k = 0` if one
occurs before the cap, and exactly `MAX_ITERATIONS` otherwise. -/
lemma sweepLoop_schedule (f : Nat → Nat) (pages : Nat → List String)
    (tt : String → Int) (pat : String) (cnt en dr : Int) :
    ∀ (fuel iters cursor p : Nat),
      fuel + iters = MAX_ITERATIONS → iters < MAX_ITERATIONS →
      (sweepLoop (scheduleOps f pages tt) pat cnt en dr fuel iters cursor iters p).err = none
      ∧ (sweepLoop (scheduleOps f pages tt) pat cnt en dr fuel iters cursor iters p).iterations
          = match firstZeroFrom f iters fuel with
            | some k => k + 1
            | none => MAX_ITERATIONS := by
  intro fuel
  induction fuel with
  | zero => intro iters cursor p hfi hlt; omega
  | succ fuel1 ih =>
    intro iters cursor p hfi hlt
    obtain ⟨p2, hpk⟩ := processKeys_schedule f pages tt en dr (pages iters) (iters + 1) p
    have hscan : (scheduleOps f pages tt).scan iters cursor pat cnt
        = Except.ok (iters + 1, f iters, pages iters) := rfl
    by_cases hz : f iters = 0
    · have hstep :
          sweepLoop (scheduleOps f pages tt) pat cnt en dr (fuel1 + 1) iters cursor iters p
            = ⟨iters + 1, none, p2, iters + 1⟩ := by
        conv_lhs => rw [sweepLoop]
        simp [hscan, hpk, hz]
      rw [hstep, show firstZeroFrom f iters (fuel1 + 1) = some iters from by
        simp [firstZeroFrom, hz]]
      exact ⟨rfl, rfl⟩
    · by_cases hlt2 : iters + 1 < MAX_ITERATIONS
      · have hstep :
            sweepLoop (scheduleOps f pages tt) pat cnt en dr (fuel1 + 1) iters cursor iters p
              = sweepLoop (scheduleOps f pages tt) pat cnt en dr fuel1 (iters + 1) (f iters)
                  (iters + 1) p2 := by
          conv_lhs => rw [sweepLoop]
          simp [hscan, hpk, hz, hlt2]
        rw [hstep, show firstZeroFrom f iters (fuel1 + 1) = firstZeroFrom f (iters + 1) fuel1
          from by simp [firstZeroFrom, hz]]
        exact ih (iters + 1) (f iters) p2 (by omega) hlt2
      · have hstep :
            sweepLoop (scheduleOps f pages tt) pat cnt en dr (fuel1 + 1) iters cursor iters p
              = ⟨iters + 1, none, p2, iters + 1⟩ := by
          conv_lhs => rw [sweepLoop]
          simp [hscan, hpk, hz, hlt2]
        have hfuel : fuel1 = 0 := by omega
        subst hfuel
        rw [hstep, show firstZeroFrom f iters 1 = none from by simp [firstZeroFrom, hz]]
        refine ⟨rfl, ?_⟩
        show iters + 1 = MAX_ITERATIONS
        omega

/-- C3: for every rule and every (possibly cyclic) cursor schedule the store
could produce, the sweep terminates without error, consumes between 1 and
`MAX_ITERATIONS` pages, and its iteration count is exactly `k + 1` when the
store first returns the scan-complete sentinel at scan k before the cap, and
exactly `MAX_ITERATIONS` (the cap, silently, with no error) otherwise. -/
theorem claim_C3_termination_cap (f : Nat → Nat) (pages : Nat → List String)
    (tt : String → Int) (pat : String) (cnt en dr : Int) :
    (invokeScript (scheduleOps f pages tt) 0 pat cnt en dr).err = none
    ∧ 1 ≤ (invokeScript (scheduleOps f pages tt) 0 pat cnt en dr).iterations
    ∧ (invokeScript (scheduleOps f pages tt) 0 pat cnt en dr).iterations ≤ MAX_ITERATIONS
    ∧ (invokeScript (scheduleOps f pages tt) 0 pat cnt en dr).iterations
        = match firstZeroFrom f 0 MAX_ITERATIONS with
          | some k => k + 1
          | none => MAX_ITERATIONS := by
  obtain ⟨herr, hit⟩ := sweepLoop_schedule f pages tt pat cnt en dr MAX_ITERATIONS 0 0 0
    (by omega) (by norm_num [MAX_ITERATIONS])
  refine ⟨herr, ?_, ?_, hit⟩
  · rw [show invokeScript (scheduleOps f pages tt) 0 pat cnt en dr
        = sweepLoop (scheduleOps f pages tt) pat cnt en dr MAX_ITERATIONS 0 0 0 0 from rfl,
      hit]
    cases hfz : firstZeroFrom f 0 MAX_ITERATIONS with
    | none =>
      show 1 ≤ MAX_ITERATIONS
      norm_num [MAX_ITERATIONS]
    | some k =>
      show 1 ≤ k + 1
      omega
  · rw [show invokeScript (scheduleOps f pages tt) 0 pat cnt en dr
        = sweepLoop (scheduleOps f pages tt) pat cnt en dr MAX_ITERATIONS 0 0 0 0 from rfl,
      hit]
    cases hfz : firstZeroFrom f 0 MAX_ITERATIONS with
    | none =>
      show MAX_ITERATIONS ≤ MAX_ITERATIONS
      exact le_refl _
    | some k =>
      show k + 1 ≤ MAX_ITERATIONS
      have := firstZeroFrom_some f MAX_ITERATIONS 0 k hfz
      omega

/-! ### The sweep over the concrete store, as a total function -/

/-- The per-page key loop specialised to the concrete store, where no
operation fails: a total function proved equal to `processKeys` over
`concreteOps` below. -/
def processPage (en dr : Int) : List String → Store → Nat → Store × Nat
  | [], s, p => (s, p)
  | v :: rest, s, p =>
    if s.ttl v = -1 then
      processPage en dr rest
        (if dr = 0 then { keys := s.keys, ttl := fun k2 => if k2 = v then en else s.ttl k2 }
         else s) (p + 1)
    else processPage en dr rest s p

/-- Over the concrete store the per-page loop never fails and computes
`processPage`. -/
lemma processKeys_concrete (m : String → String → Bool) (en dr : Int) :
    ∀ (keys : List String) (s : Store) (p : Nat),
      processKeys (concreteOps m) en dr keys s p = .ok (processPage en dr keys s p) := by
  intro keys
  induction keys with
  | nil => intro s p; rfl
  | cons v rest ih =>
    intro s p
    have hred : processKeys (concreteOps m) en dr (v :: rest) s p
        = if s.ttl v = -1 then
            (if dr = 0 then
              processKeys (concreteOps m) en dr rest
                { keys := s.keys, ttl := fun k2 => if k2 = v then en else s.ttl k2 } (p + 1)
             else processKeys (concreteOps m) en dr rest s (p + 1))
          else processKeys (concreteOps m) en dr rest s p := rfl
    rw [hred, processPage]
    by_cases hv : s.ttl v = -1
    · rw [if_pos hv, if_pos hv]
      by_cases hdr : dr = 0
      · rw [if_pos hdr, if_pos hdr, ih]
      · rw [if_neg hdr, if_neg hdr, ih]
    · rw [if_neg hv, if_neg hv, ih]

/-- The script loop specialised to the concrete store, where no operation
fails: a total function proved equal to `sweepLoop` over `concreteOps`
below.  Returns (final store, processed, iterations). -/
def concreteLoop (m : String → String → Bool) (pat : String) (bn : Nat) (en dr : Int) :
    Nat → Store → Nat → Nat → Nat → Store × Nat × Nat
  | fuel, s, cursor, iters, processed =>
    let sp := processPage en dr (((s.keys.drop cursor).take bn).filter (m pat)) s processed
    let cursor1 := if iters + 1 < MAX_ITERATIONS then
        (if cursor + bn < s.keys.length then cursor + bn else 0) else 0
    if cursor1 = 0 then (sp.1, sp.2, iters + 1)
    else
      match fuel with
      | 0 => (sp.1, sp.2, iters + 1)
      | fuel1 + 1 => concreteLoop m pat bn en dr fuel1 sp.1 cursor1 (iters + 1) sp.2

/-- Over the concrete store the script loop never fails and computes
`concreteLoop`. -/
lemma sweepLoop_concrete (m : String → String → Bool) (pat : String) (cnt en dr : Int) :
    ∀ (fuel : Nat) (s : Store) (cursor iters p : Nat),
      sweepLoop (concreteOps m) pat cnt en dr fuel s cursor iters p
        = ⟨(concreteLoop m pat cnt.toNat en dr fuel s cursor iters p).1, none,
           (concreteLoop m pat cnt.toNat en dr fuel s cursor iters p).2.1,
           (concreteLoop m pat cnt.toNat en dr fuel s cursor iters p).2.2⟩ := by
  intro fuel
  induction fuel with
  | zero =>
    intro s cursor iters p
    have hscan : (concreteOps m).scan s cursor pat cnt
        = Except.ok (s, (if cursor + cnt.toNat < s.keys.length then cursor + cnt.toNat else 0),
            ((s.keys.drop cursor).take cnt.toNat).filter (m pat)) := rfl
    conv_lhs => rw [sweepLoop]
    conv_rhs => rw [concreteLoop]
    simp only [hscan]
    simp [processKeys_concrete]
  | succ fuel1 ih =>
    intro s cursor iters p
    have hscan : (concreteOps m).scan s cursor pat cnt
        = Except.ok (s, (if cursor + cnt.toNat < s.keys.length then cursor + cnt.toNat else 0),
            ((s.keys.drop cursor).take cnt.toNat).filter (m pat)) := rfl
    by_cases hc : (if iters + 1 < MAX_ITERATIONS then
        (if cursor + cnt.toNat < s.keys.length then cursor + cnt.toNat else 0) else 0) = 0
    · conv_lhs => rw [sweepLoop]
      conv_rhs => rw [concreteLoop]
      simp only [hscan]
      simp [processKeys_concrete, hc]
    · conv_lhs => rw [sweepLoop]
      conv_rhs => rw [concreteLoop]
      simp only [hscan]
      simp [processKeys_concrete, hc, ih]

/-- Unfolding equation of `processPage` on a non-empty page. -/
lemma processPage_cons (en dr : Int) (v : String) (rest : List String) (s : Store) (p : Nat) :
    processPage en dr (v :: rest) s p
      = if s.ttl v = -1 then
          processPage en dr rest
            (if dr = 0 then
              { keys := s.keys, ttl := fun k2 => if k2 = v then en else s.ttl k2 }
             else s) (p + 1)
        else processPage en dr rest s p := rfl

/-- Processing a page never changes the key list. -/
lemma processPage_keys (en dr : Int) :
    ∀ (keys : List String) (s : Store) (p : Nat),
      (processPage en dr keys s p).1.keys = s.keys := by
  intro keys
  induction keys with
  | nil => intro s p; rfl
  | cons v rest ih =>
    intro s p
    rw [processPage_cons]
    by_cases hv : s.ttl v = -1
    · rw [if_pos hv]
      by_cases hdr : dr = 0
      · rw [if_pos hdr, ih]
      · rw [if_neg hdr, ih]
    · rw [if_neg hv, ih]

/-- In dry-run mode processing a page leaves the store untouched. -/
lemma processPage_dry (en dr : Int) (hdr : dr ≠ 0) :
    ∀ (keys : List String) (s : Store) (p : Nat),
      (processPage en dr keys s p).1 = s := by
  intro keys
  induction keys with
  | nil => intro s p; rfl
  | cons v rest ih =>
    intro s p
    rw [processPage_cons]
    by_cases hv : s.ttl v = -1
    · rw [if_pos hv, if_neg hdr, ih]
    · rw [if_neg hv, ih]

/-- Frame property of one page: a key whose TTL state changed was eligible
(TTL -1) before, now carries `en`, and occurs in the page. -/
lemma processPage_frame (en dr : Int) :
    ∀ (keys : List String) (s : Store) (p : Nat) (k : String),
      (processPage en dr keys s p).1.ttl k ≠ s.ttl k →
      s.ttl k = -1 ∧ (processPage en dr keys s p).1.ttl k = en ∧ k ∈ keys := by
  intro keys
  induction keys with
  | nil => intro s p k h; exact absurd rfl h
  | cons v rest ih =>
    intro s p k h
    rw [processPage_cons] at h ⊢
    by_cases hv : s.ttl v = -1
    · by_cases hdr : dr = 0
      · rw [if_pos hv, if_pos hdr] at h ⊢
        by_cases hchg :
            (processPage en dr rest
              { keys := s.keys, ttl := fun k2 => if k2 = v then en else s.ttl k2 }
              (p + 1)).1.ttl k
            = ({ keys := s.keys, ttl := fun k2 => if k2 = v then en else s.ttl k2 } : Store).ttl k
        · by_cases hkv : k = v
          · subst hkv
            refine ⟨hv, ?_, List.mem_cons_self k rest⟩
            rw [hchg]
            simp
          · exfalso
            apply h
            rw [hchg]
            simp [hkv]
        · obtain ⟨h1, h2, h3⟩ := ih _ (p + 1) k hchg
          refine ⟨?_, h2, List.mem_cons_of_mem v h3⟩
          by_cases hkv : k = v
          · subst hkv; exact hv
          · simpa [hkv] using h1
      · rw [if_pos hv, if_neg hdr] at h ⊢
        obtain ⟨h1, h2, h3⟩ := ih s (p + 1) k h
        exact ⟨h1, h2, List.mem_cons_of_mem v h3⟩
    · rw [if_neg hv] at h ⊢
      obtain ⟨h1, h2, h3⟩ := ih s p k h
      exact ⟨h1, h2, List.mem_cons_of_mem v h3⟩

/-- A key that is not eligible keeps its TTL state across one page. -/
lemma processPage_keep (en dr : Int) (keys : List String) (s : Store) (p : Nat)
    (k : String) (hk : s.ttl k ≠ -1) :
    (processPage en dr keys s p).1.ttl k = s.ttl k
    ∧ (processPage en dr keys s p).1.ttl k ≠ -1 := by
  by_cases h : (processPage en dr keys s p).1.ttl k = s.ttl k
  · exact ⟨h, h ▸ hk⟩
  · exact absurd (processPage_frame en dr keys s p k h).1 hk

/-- After a non-dry page pass with a TTL value other than -1, every key of
the page reports a TTL other than -1. -/
lemma processPage_post (en : Int) (hen : en ≠ -1) :
    ∀ (keys : List String) (s : Store) (p : Nat) (k : String), k ∈ keys →
      (processPage en 0 keys s p).1.ttl k ≠ -1 := by
  intro keys
  induction keys with
  | nil => intro s p k hk; exact absurd hk (List.not_mem_nil k)
  | cons v rest ih =>
    intro s p k hk
    rw [processPage_cons, if_pos rfl]
    rcases List.mem_cons.mp hk with hkv | hkr
    · subst hkv
      by_cases hv : s.ttl k = -1
      · rw [if_pos hv]
        refine (processPage_keep en 0 rest _ (p + 1) k ?_).2
        simpa using hen
      · rw [if_neg hv]
        exact (processPage_keep en 0 rest s p k hv).2
    · by_cases hv : s.ttl v = -1
      · rw [if_pos hv]
        exact ih _ (p + 1) k hkr
      · rw [if_neg hv]
        exact ih s p k hkr

/-- On a duplicate-free page the processed counter advances by exactly the
number of keys whose TTL state is -1 at entry. -/
lemma processPage_count (en dr : Int) :
    ∀ (keys : List String) (s : Store) (p : Nat), keys.Nodup →
      (processPage en dr keys s p).2
        = p + (keys.filter (fun k => s.ttl k == -1)).length := by
  intro keys
  induction keys with
  | nil => intro s p _; simp [processPage]
  | cons v rest ih =>
    intro s p hnd
    rw [List.nodup_cons] at hnd
    obtain ⟨hv_notin, hndr⟩ := hnd
    rw [processPage_cons]
    by_cases hv : s.ttl v = -1
    · rw [if_pos hv,
        ih (if dr = 0 then
          { keys := s.keys, ttl := fun k2 => if k2 = v then en else s.ttl k2 }
         else s) (p + 1) hndr]
      have hagree : ∀ k ∈ rest,
          (((if dr = 0 then
              ({ keys := s.keys, ttl := fun k2 => if k2 = v then en else s.ttl k2 } : Store)
             else s).ttl k == (-1 : Int)))
            = (s.ttl k == (-1 : Int)) := by
        intro k hkr
        by_cases hdr : dr = 0
        · have hkv : k ≠ v := fun hh => hv_notin (hh ▸ hkr)
          rw [if_pos hdr]
          simp [hkv]
        · rw [if_neg hdr]
      rw [List.filter_congr hagree, List.filter_cons]
      have : (s.ttl v == (-1 : Int)) = true := by simp [hv]
      rw [if_pos this]
      simp [Nat.add_comm, Nat.add_assoc, Nat.add_left_comm]
    · rw [if_neg hv, ih s p hndr, List.filter_cons]
      have : (s.ttl v == (-1 : Int)) = false := by simp [hv]
      rw [this]
      simp

/-- A page none of whose keys is eligible changes nothing. -/
lemma processPage_none (en dr : Int) :
    ∀ (keys : List String) (s : Store) (p : Nat), (∀ k ∈ keys, s.ttl k ≠ -1) →
      processPage en dr keys s p = (s, p) := by
  intro keys
  induction keys with
  | nil => intro s p _; rfl
  | cons v rest ih =>
    intro s p h
    rw [processPage_cons, if_neg (h v (List.mem_cons_self v rest))]
    exact ih s p (fun k hk => h k (List.mem_cons_of_mem v hk))

/-- A non-sentinel advanced cursor means: the cap was not hit and the scan
was not exhausted, and the cursor advanced by the page size. -/
lemma cursor1_ne (bn iters cursor len : Nat)
    (hc : (if iters + 1 < MAX_ITERATIONS then
        (if cursor + bn < len then cursor + bn else 0) else 0) ≠ 0) :
    iters + 1 < MAX_ITERATIONS ∧ cursor + bn < len
    ∧ (if iters + 1 < MAX_ITERATIONS then
        (if cursor + bn < len then cursor + bn else 0) else 0) = cursor + bn := by
  by_cases h1 : iters + 1 < MAX_ITERATIONS
  · by_cases h2 : cursor + bn < len
    · exact ⟨h1, h2, by simp [h1, h2]⟩
    · exact absurd (by simp [h1, h2]) hc
  · exact absurd (by simp [h1]) hc

/-- With no fuel left the loop runs its body once and stops. -/
lemma concreteLoop_zero (m : String → String → Bool) (pat : String) (bn : Nat)
    (en dr : Int) (s : Store) (cursor iters p : Nat) :
    concreteLoop m pat bn en dr 0 s cursor iters p
      = ((processPage en dr (((s.keys.drop cursor).take bn).filter (m pat)) s p).1,
         (processPage en dr (((s.keys.drop cursor).take bn).filter (m pat)) s p).2,
         iters + 1) := by
  conv_lhs => rw [concreteLoop.eq_def]
  by_cases hc : (if iters + 1 < MAX_ITERATIONS then
      (if cursor + bn < s.keys.length then cursor + bn else 0) else 0) = 0
  · simp [hc]
  · simp [hc]

/-- When the advanced cursor is the sentinel, the loop runs its body once
and stops. -/
lemma concreteLoop_exit (m : String → String → Bool) (pat : String) (bn : Nat)
    (en dr : Int) (fuel : Nat) (s : Store) (cursor iters p : Nat)
    (hc : (if iters + 1 < MAX_ITERATIONS then
        (if cursor + bn < s.keys.length then cursor + bn else 0) else 0) = 0) :
    concreteLoop m pat bn en dr fuel s cursor iters p
      = ((processPage en dr (((s.keys.drop cursor).take bn).filter (m pat)) s p).1,
         (processPage en dr (((s.keys.drop cursor).take bn).filter (m pat)) s p).2,
         iters + 1) := by
  conv_lhs => rw [concreteLoop.eq_def]
  simp [hc]

/-- When the advanced cursor is not the sentinel, the loop recurses on the
remaining fuel from the page-processed store. -/
lemma concreteLoop_step (m : String → String → Bool) (pat : String) (bn : Nat)
    (en dr : Int) (fuel1 : Nat) (s : Store) (cursor iters p : Nat)
    (hc : (if iters + 1 < MAX_ITERATIONS then
        (if cursor + bn < s.keys.length then cursor + bn else 0) else 0) ≠ 0) :
    concreteLoop m pat bn en dr (fuel1 + 1) s cursor iters p
      = concreteLoop m pat bn en dr fuel1
          (processPage en dr (((s.keys.drop cursor).take bn).filter (m pat)) s p).1
          (if iters + 1 < MAX_ITERATIONS then
            (if cursor + bn < s.keys.length then cursor + bn else 0) else 0)
          (iters + 1)
          (processPage en dr (((s.keys.drop cursor).take bn).filter (m pat)) s p).2 := by
  conv_lhs => rw [concreteLoop.eq_def]
  simp [hc]

/-- The loop never changes the key list. -/
lemma concreteLoop_keys (m : String → String → Bool) (pat : String) (bn : Nat)
    (en dr : Int) :
    ∀ (fuel : Nat) (s : Store) (cursor iters p : Nat),
      (concreteLoop m pat bn en dr fuel s cursor iters p).1.keys = s.keys := by
  intro fuel
  induction fuel with
  | zero =>
    intro s cursor iters p
    rw [concreteLoop_zero]
    exact processPage_keys en dr _ s p
  | succ fuel1 ih =>
    intro s cursor iters p
    by_cases hc : (if iters + 1 < MAX_ITERATIONS then
        (if cursor + bn < s.keys.length then cursor + bn else 0) else 0) = 0
    · rw [concreteLoop_exit m pat bn en dr (fuel1 + 1) s cursor iters p hc]
      exact processPage_keys en dr _ s p
    · rw [concreteLoop_step m pat bn en dr fuel1 s cursor iters p hc, ih]
      exact processPage_keys en dr _ s p

/-- In dry-run mode the loop leaves the store untouched. -/
lemma concreteLoop_dry (m : String → String → Bool) (pat : String) (bn : Nat)
    (en dr : Int) (hdr : dr ≠ 0) :
    ∀ (fuel : Nat) (s : Store) (cursor iters p : Nat),
      (concreteLoop m pat bn en dr fuel s cursor iters p).1 = s := by
  intro fuel
  induction fuel with
  | zero =>
    intro s cursor iters p
    rw [concreteLoop_zero]
    exact processPage_dry en dr hdr _ s p
  | succ fuel1 ih =>
    intro s cursor iters p
    by_cases hc : (if iters + 1 < MAX_ITERATIONS then
        (if cursor + bn < s.keys.length then cursor + bn else 0) else 0) = 0
    · rw [concreteLoop_exit m pat bn en dr (fuel1 + 1) s cursor iters p hc]
      exact processPage_dry en dr hdr _ s p
    · rw [concreteLoop_step m pat bn en dr fuel1 s cursor iters p hc, ih]
      exact processPage_dry en dr hdr _ s p

/-- Frame property of the loop: a key whose TTL state changed was eligible
(TTL -1) before the sweep, now carries `en`, and matches the pattern. -/
lemma concreteLoop_frame (m : String → String → Bool) (pat : String) (bn : Nat)
    (en dr : Int) :
    ∀ (fuel : Nat) (s : Store) (cursor iters p : Nat) (k : String),
      (concreteLoop m pat bn en dr fuel s cursor iters p).1.ttl k ≠ s.ttl k →
      s.ttl k = -1
      ∧ (concreteLoop m pat bn en dr fuel s cursor iters p).1.ttl k = en
      ∧ m pat k = true := by
  intro fuel
  induction fuel with
  | zero =>
    intro s cursor iters p k h
    rw [concreteLoop_zero] at h ⊢
    obtain ⟨h1, h2, h3⟩ := processPage_frame en dr _ s p k h
    exact ⟨h1, h2, (List.mem_filter.mp h3).2⟩
  | succ fuel1 ih =>
    intro s cursor iters p k h
    by_cases hc : (if iters + 1 < MAX_ITERATIONS then
        (if cursor + bn < s.keys.length then cursor + bn else 0) else 0) = 0
    · rw [concreteLoop_exit m pat bn en dr (fuel1 + 1) s cursor iters p hc] at h ⊢
      obtain ⟨h1, h2, h3⟩ := processPage_frame en dr _ s p k h
      exact ⟨h1, h2, (List.mem_filter.mp h3).2⟩
    · rw [concreteLoop_step m pat bn en dr fuel1 s cursor iters p hc] at h ⊢
      by_cases hmid :
          (concreteLoop m pat bn en dr fuel1
            (processPage en dr (((s.keys.drop cursor).take bn).filter (m pat)) s p).1
            (if iters + 1 < MAX_ITERATIONS then
              (if cursor + bn < s.keys.length then cursor + bn else 0) else 0)
            (iters + 1)
            (processPage en dr (((s.keys.drop cursor).take bn).filter (m pat)) s p).2).1.ttl k
          = (processPage en dr (((s.keys.drop cursor).take bn).filter (m pat)) s p).1.ttl k
      · have hpg : (processPage en dr (((s.keys.drop cursor).take bn).filter (m pat))
            s p).1.ttl k ≠ s.ttl k := by
          intro hh
          exact h (by rw [hmid, hh])
        obtain ⟨h1, h2, h3⟩ := processPage_frame en dr _ s p k hpg
        refine ⟨h1, ?_, (List.mem_filter.mp h3).2⟩
        rw [hmid]
        exact h2
      · obtain ⟨h1, h2, h3⟩ := ih _ _ (iters + 1) _ k hmid
        refine ⟨?_, h2, h3⟩
        by_cases hpg : (processPage en dr (((s.keys.drop cursor).take bn).filter (m pat))
            s p).1.ttl k = s.ttl k
        · rw [← hpg]; exact h1
        · exact (processPage_frame en dr _ s p k hpg).1

/-- The loop always consumes at least one page. -/
lemma concreteLoop_iters_lb (m : String → String → Bool) (pat : String) (bn : Nat)
    (en dr : Int) :
    ∀ (fuel : Nat) (s : Store) (cursor iters p : Nat),
      iters + 1 ≤ (concreteLoop m pat bn en dr fuel s cursor iters p).2.2 := by
  intro fuel
  induction fuel with
  | zero =>
    intro s cursor iters p
    rw [concreteLoop_zero]
  | succ fuel1 ih =>
    intro s cursor iters p
    by_cases hc : (if iters + 1 < MAX_ITERATIONS then
        (if cursor + bn < s.keys.length then cursor + bn else 0) else 0) = 0
    · rw [concreteLoop_exit m pat bn en dr (fuel1 + 1) s cursor iters p hc]
    · rw [concreteLoop_step m pat bn en dr fuel1 s cursor iters p hc]
      have := ih (processPage en dr (((s.keys.drop cursor).take bn).filter (m pat)) s p).1
        (if iters + 1 < MAX_ITERATIONS then
          (if cursor + bn < s.keys.length then cursor + bn else 0) else 0)
        (iters + 1)
        (processPage en dr (((s.keys.drop cursor).take bn).filter (m pat)) s p).2
      omega

/-- Started below the cap, the loop never exceeds the cap. -/
lemma concreteLoop_iters_ub (m : String → String → Bool) (pat : String) (bn : Nat)
    (en dr : Int) :
    ∀ (fuel : Nat) (s : Store) (cursor iters p : Nat), iters < MAX_ITERATIONS →
      (concreteLoop m pat bn en dr fuel s cursor iters p).2.2 ≤ MAX_ITERATIONS := by
  intro fuel
  induction fuel with
  | zero =>
    intro s cursor iters p hlt
    rw [concreteLoop_zero]
    show iters + 1 <= MAX_ITERATIONS
    omega
  | succ fuel1 ih =>
    intro s cursor iters p hlt
    by_cases hc : (if iters + 1 < MAX_ITERATIONS then
        (if cursor + bn < s.keys.length then cursor + bn else 0) else 0) = 0
    · rw [concreteLoop_exit m pat bn en dr (fuel1 + 1) s cursor iters p hc]
      show iters + 1 <= MAX_ITERATIONS
      omega
    · obtain ⟨hlt2, _, _⟩ := cursor1_ne bn iters cursor s.keys.length hc
      rw [concreteLoop_step m pat bn en dr fuel1 s cursor iters p hc]
      exact ih _ _ (iters + 1) _ hlt2

/-- After a non-dry sweep whose TTL value is not -1, every matching key in
the scanned region (the first `fuel * bn` positions from the cursor) reports
a TTL other than -1. -/
lemma concreteLoop_post (m : String → String → Bool) (pat : String) (bn : Nat)
    (en : Int) (hen : en ≠ -1) :
    ∀ (fuel : Nat) (s : Store) (cursor iters p : Nat),
      fuel + iters = MAX_ITERATIONS → iters < MAX_ITERATIONS →
      ∀ k ∈ (s.keys.drop cursor).take (fuel * bn), m pat k = true →
        (concreteLoop m pat bn en 0 fuel s cursor iters p).1.ttl k ≠ -1 := by
  intro fuel
  induction fuel with
  | zero => intro s cursor iters p hfi hlt; omega
  | succ fuel1 ih =>
    intro s cursor iters p hfi hlt k hk hm
    by_cases hc : (if iters + 1 < MAX_ITERATIONS then
        (if cursor + bn < s.keys.length then cursor + bn else 0) else 0) = 0
    · rw [concreteLoop_exit m pat bn en 0 (fuel1 + 1) s cursor iters p hc]
      have hk2 : k ∈ (s.keys.drop cursor).take bn := by
        by_cases h2 : cursor + bn < s.keys.length
        · by_cases hcap : iters + 1 < MAX_ITERATIONS
          · rw [if_pos hcap, if_pos h2] at hc
            have hb : bn = 0 := by omega
            rw [hb] at hk
            simp at hk
          · have hf : fuel1 = 0 := by omega
            subst hf
            simpa using hk
        · have hlen2 : (s.keys.drop cursor).length ≤ bn := by
            rw [List.length_drop]
            omega
          rw [List.take_of_length_le hlen2]
          exact List.take_subset _ _ hk
      exact processPage_post en hen _ s p k (List.mem_filter.mpr ⟨hk2, hm⟩)
    · obtain ⟨hlt2, h2, hceq⟩ := cursor1_ne bn iters cursor s.keys.length hc
      rw [concreteLoop_step m pat bn en 0 fuel1 s cursor iters p hc, hceq]
      have hmul : (fuel1 + 1) * bn = bn + fuel1 * bn := by ring
      rw [hmul, List.take_add] at hk
      rcases List.mem_append.mp hk with hk1 | hk2
      · have hpost : (processPage en 0 (((s.keys.drop cursor).take bn).filter (m pat))
            s p).1.ttl k ≠ -1 :=
          processPage_post en hen _ s p k (List.mem_filter.mpr ⟨hk1, hm⟩)
        by_cases hch : (concreteLoop m pat bn en 0 fuel1
            (processPage en 0 (((s.keys.drop cursor).take bn).filter (m pat)) s p).1
            (cursor + bn) (iters + 1)
            (processPage en 0 (((s.keys.drop cursor).take bn).filter (m pat)) s p).2).1.ttl k
            = (processPage en 0 (((s.keys.drop cursor).take bn).filter (m pat)) s p).1.ttl k
        · rw [hch]
          exact hpost
        · exact absurd (concreteLoop_frame m pat bn en 0 fuel1 _ (cursor + bn)
            (iters + 1) _ k hch).1 hpost
      · refine ih (processPage en 0 (((s.keys.drop cursor).take bn).filter (m pat)) s p).1
          (cursor + bn) (iters + 1) _ (by omega) hlt2 k ?_ hm
        rw [processPage_keys en 0 _ s p]
        rw [List.drop_drop] at hk2
        exact hk2

/-- On a duplicate-free keyspace that the page-size budget scans to
completion, the loop counts exactly the matching keys whose TTL state
(read through `t0`, the TTL state at entry) is -1. -/
lemma concreteLoop_count (m : String → String → Bool) (pat : String) (bn : Nat)
    (en dr : Int) :
    ∀ (fuel : Nat) (s : Store) (cursor iters p : Nat) (t0 : String → Int),
      (s.keys.drop cursor).Nodup →
      (∀ k ∈ s.keys.drop cursor, s.ttl k = t0 k) →
      fuel + iters = MAX_ITERATIONS → iters < MAX_ITERATIONS →
      (s.keys.drop cursor).length ≤ fuel * bn →
      (concreteLoop m pat bn en dr fuel s cursor iters p).2.1
        = p + ((s.keys.drop cursor).filter
            (fun k => m pat k && (t0 k == (-1 : Int)))).length := by
  intro fuel
  induction fuel with
  | zero => intro s cursor iters p t0 _ _ hfi hlt _; omega
  | succ fuel1 ih =>
    intro s cursor iters p t0 hnd hagree hfi hlt hlen
    have hpgnd : (((s.keys.drop cursor).take bn).filter (m pat)).Nodup :=
      (hnd.sublist (List.take_sublist bn _)).filter _
    by_cases hc : (if iters + 1 < MAX_ITERATIONS then
        (if cursor + bn < s.keys.length then cursor + bn else 0) else 0) = 0
    · have hlen2 : (s.keys.drop cursor).length ≤ bn := by
        by_cases h2 : cursor + bn < s.keys.length
        · by_cases hcap : iters + 1 < MAX_ITERATIONS
          · rw [if_pos hcap, if_pos h2] at hc
            have hb : bn = 0 := by omega
            have hmul0 : (fuel1 + 1) * bn = 0 := by rw [hb]; ring
            rw [List.length_drop] at hlen ⊢
            omega
          · have hf : fuel1 = 0 := by omega
            subst hf
            simpa using hlen
        · rw [List.length_drop]
          omega
      rw [concreteLoop_exit m pat bn en dr (fuel1 + 1) s cursor iters p hc]
      show (processPage en dr (((s.keys.drop cursor).take bn).filter (m pat)) s p).2
          = p + ((s.keys.drop cursor).filter
              (fun k => m pat k && (t0 k == (-1 : Int)))).length
      rw [processPage_count en dr _ s p hpgnd, List.filter_filter,
        List.take_of_length_le hlen2]
      congr 1
      refine congrArg List.length (List.filter_congr ?_)
      intro k hkmem
      rw [hagree k hkmem, Bool.and_comm]
    · obtain ⟨hlt2, h2, hceq⟩ := cursor1_ne bn iters cursor s.keys.length hc
      rw [concreteLoop_step m pat bn en dr fuel1 s cursor iters p hc, hceq]
      have hkeys : (processPage en dr (((s.keys.drop cursor).take bn).filter (m pat))
          s p).1.keys = s.keys := processPage_keys en dr _ s p
      have hdecomp : s.keys.drop cursor
          = (s.keys.drop cursor).take bn ++ s.keys.drop (cursor + bn) := by
        conv_lhs => rw [← List.take_append_drop bn (s.keys.drop cursor)]
        rw [List.drop_drop]
      have hnd2 : (s.keys.drop (cursor + bn)).Nodup := by
        have hx := hnd
        rw [hdecomp, List.nodup_append] at hx
        exact hx.2.1
      have hdisj : ((s.keys.drop cursor).take bn).Disjoint (s.keys.drop (cursor + bn)) := by
        have hx := hnd
        rw [hdecomp, List.nodup_append] at hx
        exact hx.2.2
      have hagree2 : ∀ k ∈ s.keys.drop (cursor + bn),
          (processPage en dr (((s.keys.drop cursor).take bn).filter (m pat)) s p).1.ttl k
            = s.ttl k := by
        intro k hk
        by_cases hch : (processPage en dr (((s.keys.drop cursor).take bn).filter (m pat))
            s p).1.ttl k = s.ttl k
        · exact hch
        · have hmem := (processPage_frame en dr _ s p k hch).2.2
          exact absurd hk (hdisj (List.mem_filter.mp hmem).1)
      have hnd3 : ((processPage en dr (((s.keys.drop cursor).take bn).filter (m pat))
          s p).1.keys.drop (cursor + bn)).Nodup := by
        rw [hkeys]
        exact hnd2
      have hagree3 : ∀ k ∈ (processPage en dr (((s.keys.drop cursor).take bn).filter (m pat))
          s p).1.keys.drop (cursor + bn),
          (processPage en dr (((s.keys.drop cursor).take bn).filter (m pat)) s p).1.ttl k
            = t0 k := by
        intro k hk
        rw [hkeys] at hk
        rw [hagree2 k hk]
        refine hagree k ?_
        rw [hdecomp]
        exact List.mem_append_right _ hk
      have hlen3 : ((processPage en dr (((s.keys.drop cursor).take bn).filter (m pat))
          s p).1.keys.drop (cursor + bn)).length ≤ fuel1 * bn := by
        rw [hkeys, List.length_drop]
        have hmul : (fuel1 + 1) * bn = fuel1 * bn + bn := by ring
        rw [List.length_drop, hmul] at hlen
        omega
      rw [ih (processPage en dr (((s.keys.drop cursor).take bn).filter (m pat)) s p).1
        (cursor + bn) (iters + 1)
        (processPage en dr (((s.keys.drop cursor).take bn).filter (m pat)) s p).2 t0
        hnd3 hagree3 (by omega) hlt2 hlen3]
      rw [hkeys, processPage_count en dr _ s p hpgnd, List.filter_filter]
      conv_rhs => rw [hdecomp]
      rw [List.filter_append, List.length_append]
      have hcong : ((s.keys.drop cursor).take bn).filter
            (fun k => (s.ttl k == (-1 : Int)) && m pat k)
          = ((s.keys.drop cursor).take bn).filter
            (fun k => m pat k && (t0 k == (-1 : Int))) := by
        refine List.filter_congr ?_
        intro k hk
        rw [hagree k (List.take_subset _ _ hk), Bool.and_comm]
      rw [hcong]
      omega

/-- If no matching key in the scanned region is eligible, the loop changes
nothing and counts nothing. -/
lemma concreteLoop_static (m : String → String → Bool) (pat : String) (bn : Nat)
    (en dr : Int) :
    ∀ (fuel : Nat) (s : Store) (cursor iters p : Nat),
      fuel + iters = MAX_ITERATIONS → iters < MAX_ITERATIONS →
      (∀ k ∈ (s.keys.drop cursor).take (fuel * bn), m pat k = true → s.ttl k ≠ -1) →
      (concreteLoop m pat bn en dr fuel s cursor iters p).1 = s
      ∧ (concreteLoop m pat bn en dr fuel s cursor iters p).2.1 = p := by
  intro fuel
  induction fuel with
  | zero => intro s cursor iters p hfi hlt; omega
  | succ fuel1 ih =>
    intro s cursor iters p hfi hlt hz
    have hmul : (fuel1 + 1) * bn = bn + fuel1 * bn := by ring
    have hpage : ∀ k ∈ ((s.keys.drop cursor).take bn).filter (m pat), s.ttl k ≠ -1 := by
      intro k hk
      obtain ⟨hk1, hm⟩ := List.mem_filter.mp hk
      refine hz k ?_ hm
      rw [hmul, List.take_add]
      exact List.mem_append_left _ hk1
    have hpp : processPage en dr (((s.keys.drop cursor).take bn).filter (m pat)) s p
        = (s, p) := processPage_none en dr _ s p hpage
    by_cases hc : (if iters + 1 < MAX_ITERATIONS then
        (if cursor + bn < s.keys.length then cursor + bn else 0) else 0) = 0
    · rw [concreteLoop_exit m pat bn en dr (fuel1 + 1) s cursor iters p hc, hpp]
      exact ⟨rfl, rfl⟩
    · obtain ⟨hlt2, h2, hceq⟩ := cursor1_ne bn iters cursor s.keys.length hc
      rw [concreteLoop_step m pat bn en dr fuel1 s cursor iters p hc, hceq, hpp]
      refine ih s (cursor + bn) (iters + 1) p (by omega) hlt2 ?_
      intro k hk hm
      refine hz k ?_ hm
      rw [hmul, List.take_add, List.drop_drop]
      exact List.mem_append_right _ hk

/-- Over a store none of whose keys matches the pattern, the loop changes
nothing and counts nothing. -/
lemma concreteLoop_nomatch (m : String → String → Bool) (pat : String) (bn : Nat)
    (en dr : Int) :
    ∀ (fuel : Nat) (s : Store) (cursor iters p : Nat),
      (∀ k ∈ s.keys, m pat k = false) →
      (concreteLoop m pat bn en dr fuel s cursor iters p).1 = s
      ∧ (concreteLoop m pat bn en dr fuel s cursor iters p).2.1 = p := by
  intro fuel
  induction fuel with
  | zero =>
    intro s cursor iters p hm
    have hpage : ((s.keys.drop cursor).take bn).filter (m pat) = [] :=
      List.filter_eq_nil_iff.mpr (fun k hk => by
        simp [hm k (List.drop_subset _ _ (List.take_subset _ _ hk))])
    rw [concreteLoop_zero, hpage]
    exact ⟨rfl, rfl⟩
  | succ fuel1 ih =>
    intro s cursor iters p hm
    have hpage : ((s.keys.drop cursor).take bn).filter (m pat) = [] :=
      List.filter_eq_nil_iff.mpr (fun k hk => by
        simp [hm k (List.drop_subset _ _ (List.take_subset _ _ hk))])
    by_cases hc : (if iters + 1 < MAX_ITERATIONS then
        (if cursor + bn < s.keys.length then cursor + bn else 0) else 0) = 0
    · rw [concreteLoop_exit m pat bn en dr (fuel1 + 1) s cursor iters p hc, hpage]
      exact ⟨rfl, rfl⟩
    · rw [concreteLoop_step m pat bn en dr fuel1 s cursor iters p hc, hpage]
      exact ih s _ (iters + 1) p hm

/-- Witness for the amended C7 at a concrete client and two concrete rules. -/
theorem claim_C7_witness :
    ∃ results : List ProcessingResult,
      runAll (fun n => n) clientW [confW, confW2] false = .ok results
      ∧ results.length = [confW, confW2].length
      ∧ ∀ i : Nat, results[i]?
          = ([confW, confW2][i]?).map
              (fun conf => sweepOutcome (fun n => n) clientW.ops storeAB conf false) :=
  claim_C7_order (fun n => n) clientW [confW, confW2] false storeAB rfl

/-- Over the concrete store, `expire_keys` under an obtained connection
never fails and returns the components computed by `concreteLoop`. -/
lemma expire_keys_concrete (m : String → String → Bool) (store : Store)
    (conf : CleanupConfig) (dry : Bool) :
    expire_keys { get_connection := .ok store, ops := concreteOps m } conf dry
      = .ok (none,
          ((concreteLoop m conf.pattern conf.batch.toNat conf.ttl_seconds
             (if dry then 1 else 0) MAX_ITERATIONS store 0 0 0).2.1 : Int),
          ((concreteLoop m conf.pattern conf.batch.toNat conf.ttl_seconds
             (if dry then 1 else 0) MAX_ITERATIONS store 0 0 0).2.2 : Int),
          (concreteLoop m conf.pattern conf.batch.toNat conf.ttl_seconds
             (if dry then 1 else 0) MAX_ITERATIONS store 0 0 0).1) := by
  simp [expire_keys, invokeScript, sweepLoop_concrete]

/-! ### Claim C6 -/

/-- C6: over any concrete store, a dry-run sweep returns with the store
state unchanged (only reads were performed); a non-dry-run sweep preserves
the key list and mutates only the TTL state of keys that matched the
pattern and were eligible (TTL -1), setting them to the rule's TTL. -/
theorem claim_C6_dry_run_frame (m : String → String → Bool) (store : Store)
    (conf : CleanupConfig) :
    (∃ p i : Int,
      expire_keys { get_connection := .ok store, ops := concreteOps m } conf true
        = .ok (none, p, i, store))
    ∧ (∀ (p i : Int) (s1 : Store),
        expire_keys { get_connection := .ok store, ops := concreteOps m } conf false
          = .ok (none, p, i, s1) →
        s1.keys = store.keys
        ∧ ∀ k, s1.ttl k ≠ store.ttl k →
            m conf.pattern k = true ∧ store.ttl k = -1 ∧ s1.ttl k = conf.ttl_seconds) := by
  constructor
  · refine ⟨((concreteLoop m conf.pattern conf.batch.toNat conf.ttl_seconds
        (if true then 1 else 0) MAX_ITERATIONS store 0 0 0).2.1 : Int),
      ((concreteLoop m conf.pattern conf.batch.toNat conf.ttl_seconds
        (if true then 1 else 0) MAX_ITERATIONS store 0 0 0).2.2 : Int), ?_⟩
    rw [expire_keys_concrete m store conf true,
      concreteLoop_dry m conf.pattern conf.batch.toNat conf.ttl_seconds _ (by norm_num)
        MAX_ITERATIONS store 0 0 0]
  · intro p i s1 heq
    rw [expire_keys_concrete m store conf false] at heq
    simp only [Except.ok.injEq, Prod.mk.injEq] at heq
    obtain ⟨-, -, -, hs⟩ := heq
    subst hs
    constructor
    · exact concreteLoop_keys m conf.pattern conf.batch.toNat conf.ttl_seconds _
        MAX_ITERATIONS store 0 0 0
    · intro k hne
      obtain ⟨h1, h2, h3⟩ := concreteLoop_frame m conf.pattern conf.batch.toNat
        conf.ttl_seconds _ MAX_ITERATIONS store 0 0 0 k hne
      exact ⟨h3, h1, h2⟩

/-! ### Claim C4 -/

/-- A three-key store in which "b" already carries a TTL and the other keys
are persistent. -/
def storeC4 : Store :=
  { keys := ["a", "b", "c"], ttl := fun k => if k = "b" then 5 else -1 }

/-- C4: over a duplicate-free concrete store that the page budget scans to
completion, the sweep's keysProcessed counts exactly the enumerated matching
keys whose TTL query returns the -1 sentinel; every key with any other TTL
value (an existing TTL, or the -2 absent sentinel) keeps its TTL state
untouched; and in non-dry-run mode every counted key is assigned the rule's
ttlSeconds. -/
theorem claim_C4_ttl_gating (m : String → String → Bool) (store : Store)
    (conf : CleanupConfig) (dry : Bool)
    (hnd : store.keys.Nodup) (hb : 0 < conf.batch)
    (hlen : store.keys.length ≤ conf.batch.toNat * MAX_ITERATIONS)
    (hts : 0 < conf.ttl_seconds) :
    ∃ (i : Int) (s1 : Store),
      expire_keys { get_connection := .ok store, ops := concreteOps m } conf dry
        = .ok (none,
            ((store.keys.filter
                (fun k => m conf.pattern k && (store.ttl k == (-1 : Int)))).length : Int),
            i, s1)
      ∧ (∀ k, store.ttl k ≠ -1 → s1.ttl k = store.ttl k)
      ∧ (dry = false → ∀ k ∈ store.keys, m conf.pattern k = true → store.ttl k = -1 →
          s1.ttl k = conf.ttl_seconds) := by
  have hd0 : store.keys.drop 0 = store.keys := List.drop_zero store.keys
  have hcount := concreteLoop_count m conf.pattern conf.batch.toNat conf.ttl_seconds
    (if dry then 1 else 0) MAX_ITERATIONS store 0 0 0 store.ttl
    (by rw [hd0]; exact hnd) (fun k _ => rfl) (by omega)
    (by norm_num [MAX_ITERATIONS])
    (by rw [hd0, Nat.mul_comm]; exact hlen)
  rw [hd0] at hcount
  refine ⟨((concreteLoop m conf.pattern conf.batch.toNat conf.ttl_seconds
      (if dry then 1 else 0) MAX_ITERATIONS store 0 0 0).2.2 : Int),
    (concreteLoop m conf.pattern conf.batch.toNat conf.ttl_seconds
      (if dry then 1 else 0) MAX_ITERATIONS store 0 0 0).1, ?_, ?_, ?_⟩
  · rw [expire_keys_concrete m store conf dry, hcount]
    rw [Nat.zero_add]
  · intro k hk
    by_cases hch : (concreteLoop m conf.pattern conf.batch.toNat conf.ttl_seconds
        (if dry then 1 else 0) MAX_ITERATIONS store 0 0 0).1.ttl k = store.ttl k
    · exact hch
    · exact absurd (concreteLoop_frame m conf.pattern conf.batch.toNat conf.ttl_seconds
        _ MAX_ITERATIONS store 0 0 0 k hch).1 hk
  · intro hdry k hkmem hmk hk1
    subst hdry
    have hif : (if false then (1 : Int) else 0) = 0 := rfl
    rw [hif]
    have hen : conf.ttl_seconds ≠ -1 := by omega
    have hreg : k ∈ (store.keys.drop 0).take (MAX_ITERATIONS * conf.batch.toNat) := by
      rw [hd0, List.take_of_length_le (by rw [Nat.mul_comm]; exact hlen)]
      exact hkmem
    have hpost := concreteLoop_post m conf.pattern conf.batch.toNat conf.ttl_seconds hen
      MAX_ITERATIONS store 0 0 0 (by omega) (by norm_num [MAX_ITERATIONS]) k hreg hmk
    by_cases hch : (concreteLoop m conf.pattern conf.batch.toNat conf.ttl_seconds 0
        MAX_ITERATIONS store 0 0 0).1.ttl k = store.ttl k
    · rw [hch] at hpost ⊢
      exact absurd hk1 hpost
    · exact (concreteLoop_frame m conf.pattern conf.batch.toNat conf.ttl_seconds 0
        MAX_ITERATIONS store 0 0 0 k hch).2.1

/-- Witness for C4 over a concrete three-key store with one pre-TTL'd key:
the sweep counts the two persistent keys, leaves "b" untouched and assigns
ttlSeconds to the counted keys. -/
theorem claim_C4_witness :
    ∃ (i : Int) (s1 : Store),
      expire_keys { get_connection := .ok storeC4, ops := concreteOps mTrue } confW false
        = .ok (none,
            ((storeC4.keys.filter
                (fun k => mTrue confW.pattern k && (storeC4.ttl k == (-1 : Int)))).length : Int),
            i, s1)
      ∧ (∀ k, storeC4.ttl k ≠ -1 → s1.ttl k = storeC4.ttl k)
      ∧ (false = false → ∀ k ∈ storeC4.keys, mTrue confW.pattern k = true →
          storeC4.ttl k = -1 → s1.ttl k = confW.ttl_seconds) :=
  claim_C4_ttl_gating mTrue storeC4 confW false (by decide) (by decide) (by decide) (by decide)

/-! ### Claim C5 -/

/-- C5: a non-dry-run sweep is idempotent over a store that does not change
between runs: every key the first run found eligible carries a TTL
afterwards, so an immediately repeated sweep processes zero keys and leaves
the store exactly as the first run left it. -/
theorem claim_C5_idempotent (m : String → String → Bool) (store : Store)
    (conf : CleanupConfig) (hts : 0 < conf.ttl_seconds) (p1 i1 : Int) (s1 : Store)
    (h1 : expire_keys { get_connection := .ok store, ops := concreteOps m } conf false
        = .ok (none, p1, i1, s1)) :
    ∃ i2 : Int,
      expire_keys { get_connection := .ok s1, ops := concreteOps m } conf false
        = .ok (none, 0, i2, s1) := by
  rw [expire_keys_concrete m store conf false] at h1
  have hif : (if false then (1 : Int) else 0) = 0 := rfl
  rw [hif] at h1
  simp only [Except.ok.injEq, Prod.mk.injEq] at h1
  obtain ⟨-, -, -, hs1⟩ := h1
  have hen : conf.ttl_seconds ≠ -1 := by omega
  have hpost := concreteLoop_post m conf.pattern conf.batch.toNat conf.ttl_seconds hen
    MAX_ITERATIONS store 0 0 0 (by omega) (by norm_num [MAX_ITERATIONS])
  have hkeys1 : s1.keys = store.keys := by
    rw [← hs1]
    exact concreteLoop_keys m conf.pattern conf.batch.toNat conf.ttl_seconds 0
      MAX_ITERATIONS store 0 0 0
  have hz : ∀ k ∈ (s1.keys.drop 0).take (MAX_ITERATIONS * conf.batch.toNat),
      m conf.pattern k = true → s1.ttl k ≠ -1 := by
    intro k hk hmk
    rw [← hs1]
    refine hpost k ?_ hmk
    rw [List.drop_zero] at hk ⊢
    rw [hkeys1] at hk
    exact hk
  have hstatic := concreteLoop_static m conf.pattern conf.batch.toNat conf.ttl_seconds 0
    MAX_ITERATIONS s1 0 0 0 (by omega) (by norm_num [MAX_ITERATIONS]) hz
  refine ⟨((concreteLoop m conf.pattern conf.batch.toNat conf.ttl_seconds 0
    MAX_ITERATIONS s1 0 0 0).2.2 : Int), ?_⟩
  rw [expire_keys_concrete m s1 conf false, hif]
  simp [hstatic.1, hstatic.2]

/-- Witness for C5: the two-key all-persistent store, swept twice; the
first run processes both keys, the second run processes none. -/
theorem claim_C5_witness :
    ∃ (p1 i1 : Int) (s1 : Store) (i2 : Int),
      expire_keys { get_connection := .ok storeAB, ops := concreteOps mTrue } confW false
        = .ok (none, p1, i1, s1)
      ∧ expire_keys { get_connection := .ok s1, ops := concreteOps mTrue } confW false
        = .ok (none, 0, i2, s1) := by
  obtain ⟨i2, h2⟩ := claim_C5_idempotent mTrue storeAB confW (by decide) 2 1 _ rfl
  exact ⟨2, 1, _, i2, rfl, h2⟩

/-! ### Claim C9 -/

/-- C9: for a rule whose pattern matches no key of the store, the sweep
completes without error, counts zero keys, leaves the store untouched, and
still consumes at least one scan page (and at most the cap). -/
theorem claim_C9_no_match (m : String → String → Bool) (store : Store)
    (conf : CleanupConfig) (dry : Bool)
    (hm : ∀ k ∈ store.keys, m conf.pattern k = false) :
    ∃ i : Int,
      expire_keys { get_connection := .ok store, ops := concreteOps m } conf dry
        = .ok (none, 0, i, store)
      ∧ 1 ≤ i ∧ i ≤ (MAX_ITERATIONS : Int) := by
  have hnm := concreteLoop_nomatch m conf.pattern conf.batch.toNat conf.ttl_seconds
    (if dry then 1 else 0) MAX_ITERATIONS store 0 0 0 hm
  have hlb := concreteLoop_iters_lb m conf.pattern conf.batch.toNat conf.ttl_seconds
    (if dry then 1 else 0) MAX_ITERATIONS store 0 0 0
  have hub := concreteLoop_iters_ub m conf.pattern conf.batch.toNat conf.ttl_seconds
    (if dry then 1 else 0) MAX_ITERATIONS store 0 0 0 (by norm_num [MAX_ITERATIONS])
  refine ⟨((concreteLoop m conf.pattern conf.batch.toNat conf.ttl_seconds
      (if dry then 1 else 0) MAX_ITERATIONS store 0 0 0).2.2 : Int), ?_, ?_, ?_⟩
  · rw [expire_keys_concrete m store conf dry, hnm.1, hnm.2]
    norm_num
  · omega
  · omega

/-- Witness for C9: a matcher accepting nothing over the two-key store. -/
theorem claim_C9_witness :
    ∃ i : Int,
      expire_keys { get_connection := .ok storeAB, ops := concreteOps mFalse } confW false
        = .ok (none, 0, i, storeAB)
      ∧ 1 ≤ i ∧ i ≤ (MAX_ITERATIONS : Int) :=
  claim_C9_no_match mFalse storeAB confW false (by decide)

end RedisCleaner
